import Mathlib

/-!
Verification of the graph4nlp embedding-construction module and the CoNLL
example dataset glue code.

The development shallowly embeds the relevant parts of
`graph4nlp/pytorch/modules/graph_construction/embedding_construction.py`
and `examples/pytorch/name_entity_recognition/conll.py`:

* tensors of shape `(N, L, D)` become `List (List (List α))`, rows become
  `List α`;
* machine floats are modelled by exact rationals `ℚ` for the arithmetic
  claims, and by the inductive `FloatVal` (which has `inf`/`nan` values with
  IEEE-style division by zero) for the division-by-zero claim;
* Python code that raises becomes `Except PyError`;
* the framework RNN cell (`nn.LSTM` / `nn.GRU`), which processes the packed
  batch elements independently of one another, is abstracted as a
  per-sequence function passed as a parameter.
-/

/-- Python exception values raised by the embedded code paths. -/
inductive PyError where
  | runtimeError : String → PyError
  | notImplementedError : PyError
  | nameError : String → PyError
  | typeError : String → PyError
deriving DecidableEq, Repr

/-- Feature vectors (one row of a tensor) over exact rationals. -/
abbrev Vec := List ℚ

/-- Embedding of `torch.sum(emb, dim=1)` for one item of an `(N, L, D)`
tensor: elementwise sum of the `L` token vectors.  On an empty sequence the
result is the empty row. -/
def sumDim1 {α : Type} [Add α] : List (List α) → List α
  | [] => []
  | [v] => v
  | v :: w :: rest => List.zipWith (· + ·) v (sumDim1 (w :: rest))

/-- Embedding of `MeanEmbedding.forward` (embedding_construction.py lines
354-371): `sumed_emb = torch.sum(emb, dim=1)`, then the length tensor is
broadcast across the feature dimension, cast to float (`castLen`) and the
sum is divided elementwise by it.  Parametric in the scalar type so that the
same definition is read over `ℚ` and over `FloatVal`. -/
def MeanEmbedding.forward {α : Type} [Add α] [Div α] (castLen : Nat → α)
    (emb : List (List (List α))) (len_ : List Nat) : List (List α) :=
  (List.zip emb len_).map (fun p => (sumDim1 p.1).map (fun c => c / castLen p.2))

/-- IEEE-754-style scalar value: a finite rational, an infinity, or NaN.
`torch` tensors hold IEEE floats, whose division by zero yields `±inf` or
`nan` instead of raising. -/
inductive FloatVal where
  | fin : ℚ → FloatVal
  | inf : FloatVal
  | neginf : FloatVal
  | nan : FloatVal
deriving DecidableEq, Repr

/-- IEEE-style addition on `FloatVal` (finite arithmetic is exact here; the
claims only exercise the finite cases). -/
def FloatVal.add : FloatVal → FloatVal → FloatVal
  | .fin a, .fin b => .fin (a + b)
  | .fin _, .inf => .inf
  | .inf, .fin _ => .inf
  | .inf, .inf => .inf
  | .fin _, .neginf => .neginf
  | .neginf, .fin _ => .neginf
  | .neginf, .neginf => .neginf
  | .inf, .neginf => .nan
  | .neginf, .inf => .nan
  | .nan, _ => .nan
  | _, .nan => .nan

/-- IEEE-style division on `FloatVal`: a nonzero finite value divided by
zero is a signed infinity, `0 / 0` is NaN; no exception is raised. -/
def FloatVal.div : FloatVal → FloatVal → FloatVal
  | .fin a, .fin b =>
      if b = 0 then (if a = 0 then .nan else if 0 < a then .inf else .neginf)
      else .fin (a / b)
  | .fin _, .inf => .fin 0
  | .fin _, .neginf => .fin 0
  | .inf, .fin _ => .inf
  | .neginf, .fin _ => .neginf
  | .inf, .inf => .nan
  | .inf, .neginf => .nan
  | .neginf, .inf => .nan
  | .neginf, .neginf => .nan
  | .nan, _ => .nan
  | _, .nan => .nan

instance : Add FloatVal := ⟨FloatVal.add⟩

instance : Div FloatVal := ⟨FloatVal.div⟩

/-- A `FloatVal` is finite when it is a `fin` rational. -/
def FloatVal.isFinite : FloatVal → Bool
  | .fin _ => true
  | _ => false

/-- Cast of an integer length tensor entry to a float (`len_.float()`). -/
def floatOfNat (n : Nat) : FloatVal := .fin n

/-- Cast of an integer length tensor entry to an exact rational. -/
def ratOfNat (n : Nat) : ℚ := n

theorem sumDim1_length {α : Type} [Add α] (l : List (List α)) (d : Nat)
    (hne : l ≠ []) (hd : ∀ v ∈ l, v.length = d) : (sumDim1 l).length = d := by
  induction l with
  | nil => cases hne rfl
  | cons v rest ih =>
      cases rest with
      | nil => simpa using hd v (by simp)
      | cons w rest' =>
          have hv : v.length = d := hd v (by simp)
          have htail : (sumDim1 (w :: rest')).length = d := by
            refine ih (by simp) ?_
            intro u hu
            exact hd u (List.mem_cons_of_mem _ hu)
          simp [sumDim1, List.length_zipWith, hv, htail]

theorem zipWith_add_replicate_zero (v : Vec) :
    List.zipWith (· + ·) v (List.replicate v.length (0 : ℚ)) = v := by
  induction v with
  | nil => rfl
  | cons a t ih => simp [List.replicate, ih]

theorem sumDim1_replicate_zero (m d : Nat) (hm : 0 < m) :
    sumDim1 (List.replicate m (List.replicate d (0 : ℚ))) = List.replicate d 0 := by
  induction m with
  | zero => cases hm
  | succ k ih =>
      cases k with
      | zero => rfl
      | succ k' =>
          have ihk := ih (Nat.succ_pos k')
          have hzz := zipWith_add_replicate_zero (List.replicate d (0 : ℚ))
          rw [List.length_replicate] at hzz
          calc sumDim1 (List.replicate (k' + 2) (List.replicate d (0 : ℚ)))
              = List.zipWith (· + ·) (List.replicate d (0 : ℚ))
                (sumDim1 (List.replicate (k' + 1) (List.replicate d (0 : ℚ)))) := rfl
            _ = List.zipWith (· + ·) (List.replicate d (0 : ℚ)) (List.replicate d 0) := by
                rw [ihk]
            _ = List.replicate d 0 := hzz

theorem sumDim1_zero_suffix (l : List (List ℚ)) (n d : Nat)
    (hn : 0 < n) (hd : ∀ v ∈ l, v.length = d)
    (hz : ∀ j, n ≤ j → j < l.length → l.getD j [] = List.replicate d 0) :
    sumDim1 l = sumDim1 (l.take n) := by
  induction l generalizing n with
  | nil => simp
  | cons v rest ih =>
      cases n with
      | zero => cases hn
      | succ m =>
          cases rest with
          | nil => simp
          | cons w rest' =>
              by_cases hm : 0 < m
              · have hrest : sumDim1 (w :: rest') = sumDim1 ((w :: rest').take m) := by
                  refine ih m hm ?_ ?_
                  · intro u hu; exact hd u (List.mem_cons_of_mem _ hu)
                  · intro j hj hjlen
                    have h1 := hz (j + 1) (by omega) (by simp at hjlen ⊢; omega)
                    rwa [List.getD_cons_succ] at h1
                obtain ⟨y, ys, hys⟩ : ∃ y ys, (w :: rest').take m = y :: ys := by
                  cases m with
                  | zero => omega
                  | succ m' => exact ⟨w, rest'.take m', rfl⟩
                have htake : (v :: w :: rest').take (m + 1) = v :: (w :: rest').take m := rfl
                calc sumDim1 (v :: w :: rest')
                    = List.zipWith (· + ·) v (sumDim1 (w :: rest')) := rfl
                  _ = List.zipWith (· + ·) v (sumDim1 ((w :: rest').take m)) := by rw [hrest]
                  _ = sumDim1 (v :: (w :: rest').take m) := by rw [hys]; rfl
                  _ = sumDim1 ((v :: w :: rest').take (m + 1)) := by rw [htake]
              · have hm0 : m = 0 := by omega
                subst hm0
                have hvlen : v.length = d := hd v (by simp)
                have hallz : ∀ u ∈ w :: rest', u = List.replicate d 0 := by
                  intro u hu
                  rcases List.mem_iff_getElem.mp hu with ⟨j, hj, hju⟩
                  have h1 : (w :: rest').getD j [] = List.replicate d 0 := by
                    have h2 := hz (j + 1) (by omega) (by simp at hj ⊢; omega)
                    rwa [List.getD_cons_succ] at h2
                  rw [List.getD_eq_getElem _ _ hj] at h1
                  rw [← hju]; exact h1
                have hrepl : w :: rest' = List.replicate (w :: rest').length (List.replicate d 0) :=
                  List.eq_replicate_of_mem hallz
                have hzz := zipWith_add_replicate_zero v
                rw [hvlen] at hzz
                calc sumDim1 (v :: w :: rest')
                    = List.zipWith (· + ·) v (sumDim1 (w :: rest')) := rfl
                  _ = List.zipWith (· + ·) v (List.replicate d 0) := by
                      rw [hrepl, sumDim1_replicate_zero _ d (by simp)]
                  _ = v := hzz
                  _ = sumDim1 ((v :: w :: rest').take 1) := rfl

/-- C2: for every `(N, L, D)` embedding tensor and positive per-item length
tensor, row `i` of `MeanEmbedding.forward emb len_` is the elementwise sum of
the `L` token vectors of item `i` divided by `len_[i]`; and whenever the
token vectors of item `i` at positions `≥ len_[i]` are all zero, this equals
the arithmetic mean (sum divided by count) of the first `len_[i]` token
vectors. -/
theorem MeanEmbedding.forward_mean (emb : List (List (List ℚ))) (len_ : List Nat)
    (i d : Nat) (hi : i < emb.length) (hlen : len_.length = emb.length)
    (hpos : 0 < len_.getD i 0)
    (hd : ∀ v ∈ emb.getD i [], v.length = d) :
    ((MeanEmbedding.forward ratOfNat emb len_).getD i [] =
      (sumDim1 (emb.getD i [])).map (fun c => c / (len_.getD i 0 : ℚ))) ∧
    ((∀ j, len_.getD i 0 ≤ j → j < (emb.getD i []).length →
        (emb.getD i []).getD j [] = List.replicate d 0) →
      (MeanEmbedding.forward ratOfNat emb len_).getD i [] =
        (sumDim1 ((emb.getD i []).take (len_.getD i 0))).map
          (fun c => c / (len_.getD i 0 : ℚ))) := by
  have hziplen : (List.zip emb len_).length = emb.length := by
    simp [List.length_zip, hlen]
  have hilen : i < len_.length := by omega
  have hrow : (MeanEmbedding.forward ratOfNat emb len_).getD i [] =
      (sumDim1 (emb.getD i [])).map (fun c => c / (len_.getD i 0 : ℚ)) := by
    have hilt : i < (List.zip emb len_).length := by omega
    rw [List.getD_eq_getElem emb [] hi, List.getD_eq_getElem len_ 0 hilen]
    rw [MeanEmbedding.forward, List.getD_eq_getElem _ [] (by simpa using hilt)]
    rw [List.getElem_map, List.getElem_zip]
    rfl
  refine ⟨hrow, ?_⟩
  intro hzero
  rw [hrow, sumDim1_zero_suffix (emb.getD i []) (len_.getD i 0) d hpos hd hzero]

/-- Closed-form sanity witness for C2: the mean of the two token vectors of a
single item, with one padded zero position, is their arithmetic mean. -/
theorem MeanEmbedding.forward_mean_witness :
    (MeanEmbedding.forward ratOfNat [[[2, 4], [4, 8], [0, 0]]] [2]).getD 0 [] =
      (sumDim1 ([[ (2 : ℚ), 4], [4, 8], [0, 0]].take 2)).map (fun c => c / (2 : ℚ)) :=
  (MeanEmbedding.forward_mean [[[2, 4], [4, 8], [0, 0]]] [2] 0 2 (by decide)
    (by decide) (by decide) (by decide)).2 (by
      intro j hj hjlen
      have hj3 : j < 3 := by simpa using hjlen
      have hjge : 2 ≤ j := by simpa using hj
      have hj2 : j = 2 := by omega
      subst hj2
      rfl)

/-- C7: `MeanEmbedding.forward` divides by the length tensor without any
guard: on an input whose length entry is `0` it returns normally (no
exception) and the affected output row is the non-finite IEEE value `inf`. -/
theorem MeanEmbedding.forward_div_zero :
    MeanEmbedding.forward floatOfNat [[[FloatVal.fin 1]]] [0] = [[FloatVal.inf]] ∧
    FloatVal.isFinite FloatVal.inf = false := by
  constructor
  · rfl
  · rfl

/-- Layer object stored in `self.node_edge_emb_layer` /
`self.seq_info_encode_layer` after a successful `EmbeddingConstruction`
constructor run. -/
inductive NodeEdgeLayer where
  | meanEmbedding : NodeEdgeLayer
  | rnnEmbedding (input_size hidden_size : Nat) (bidirectional : Bool)
      (rnn_type : String) : NodeEdgeLayer
deriving DecidableEq, Repr

/-- Embedding of `RNNEmbedding.__init__` (embedding_construction.py lines
392-415): rejects an `rnn_type` other than `lstm`/`gru` and an odd
`hidden_size` in bidirectional mode, both with `RuntimeError`; otherwise the
layer object is built.  The `dropout`/`device` plumbing fields do not affect
control flow and are not modelled. -/
def RNNEmbedding.init (input_size hidden_size : Nat) (bidirectional : Bool)
    (rnn_type : String) : Except PyError NodeEdgeLayer :=
  if rnn_type ≠ "lstm" ∧ rnn_type ≠ "gru" then
    Except.error (PyError.runtimeError
      ("rnn_type is expected to be lstm or gru, got " ++ rnn_type))
  else if bidirectional ∧ hidden_size % 2 ≠ 0 then
    Except.error (PyError.runtimeError
      "hidden_size is expected to be even in the bidirectional mode!")
  else
    Except.ok (NodeEdgeLayer.rnnEmbedding input_size hidden_size bidirectional rnn_type)

/-- Embedding of the `node_edge_emb_strategy` dispatch of
`EmbeddingConstruction.__init__` (lines 103-130): `word_emb_dim` stands for
`word_vocab.embeddings.shape[1]`. -/
def nodeEdgeEmbLayerInit (word_emb_dim hidden_size : Nat)
    (node_edge_emb_strategy : String) : Except PyError NodeEdgeLayer :=
  if node_edge_emb_strategy = "mean" then
    Except.ok NodeEdgeLayer.meanEmbedding
  else if node_edge_emb_strategy = "lstm" then
    RNNEmbedding.init word_emb_dim hidden_size false "lstm"
  else if node_edge_emb_strategy = "bilstm" then
    RNNEmbedding.init word_emb_dim hidden_size true "lstm"
  else if node_edge_emb_strategy = "gru" then
    RNNEmbedding.init word_emb_dim hidden_size false "gru"
  else if node_edge_emb_strategy = "bigru" then
    RNNEmbedding.init word_emb_dim hidden_size true "gru"
  else
    Except.error (PyError.runtimeError
      ("Unknown node_edge_emb_strategy: " ++ node_edge_emb_strategy))

/-- Embedding of the `seq_info_encode_strategy` dispatch of
`EmbeddingConstruction.__init__` (lines 132-163).  The input size of the
sequence encoder is `word_emb_dim` when `node_edge_emb_strategy` is `mean`
and `hidden_size` otherwise, as in the source. -/
def seqInfoEncodeLayerInit (word_emb_dim hidden_size : Nat)
    (node_edge_emb_strategy seq_info_encode_strategy : String) :
    Except PyError (Option NodeEdgeLayer) :=
  let in_size := if node_edge_emb_strategy = "mean" then word_emb_dim else hidden_size
  if seq_info_encode_strategy = "none" then
    Except.ok Option.none
  else if seq_info_encode_strategy = "lstm" then
    (RNNEmbedding.init in_size hidden_size false "lstm").map Option.some
  else if seq_info_encode_strategy = "bilstm" then
    (RNNEmbedding.init in_size hidden_size true "lstm").map Option.some
  else if seq_info_encode_strategy = "gru" then
    (RNNEmbedding.init in_size hidden_size false "gru").map Option.some
  else if seq_info_encode_strategy = "bigru" then
    (RNNEmbedding.init in_size hidden_size true "gru").map Option.some
  else
    Except.error (PyError.runtimeError
      ("Unknown seq_info_encode_strategy: " ++ seq_info_encode_strategy))

/-- Embedding of `EmbeddingConstruction.__init__` (lines 75-163), restricted
to the strategy dispatch: the node/edge layer is constructed first, then the
sequence-information encoder; the first raised exception, if any, aborts the
constructor. -/
def EmbeddingConstruction.init (word_emb_dim hidden_size : Nat)
    (node_edge_emb_strategy seq_info_encode_strategy : String) :
    Except PyError (NodeEdgeLayer × Option NodeEdgeLayer) := do
  let node_edge_emb_layer ←
    nodeEdgeEmbLayerInit word_emb_dim hidden_size node_edge_emb_strategy
  let seq_info_encode_layer ←
    seqInfoEncodeLayerInit word_emb_dim hidden_size
      node_edge_emb_strategy seq_info_encode_strategy
  pure (node_edge_emb_layer, seq_info_encode_layer)

/-- Accepted `node_edge_emb_strategy` values. -/
def validNodeEdgeStrategies : List String := ["mean", "lstm", "bilstm", "gru", "bigru"]

/-- Accepted `seq_info_encode_strategy` values. -/
def validSeqInfoStrategies : List String := ["none", "lstm", "bilstm", "gru", "bigru"]

/-- Strategies that build a bidirectional RNN layer. -/
def bidirectionalStrategies : List String := ["bilstm", "bigru"]

theorem nodeEdgeEmbLayerInit_isOk (d h : Nat) (nes : String) :
    (nodeEdgeEmbLayerInit d h nes).isOk = true ↔
      (nes ∈ validNodeEdgeStrategies ∧ (nes ∈ bidirectionalStrategies → h % 2 = 0)) := by
  unfold nodeEdgeEmbLayerInit RNNEmbedding.init
  split_ifs <;>
    simp_all [validNodeEdgeStrategies, bidirectionalStrategies, Except.isOk, Except.toBool]

theorem nodeEdgeEmbLayerInit_error (d h : Nat) (nes : String) (e : PyError)
    (he : nodeEdgeEmbLayerInit d h nes = Except.error e) :
    ∃ msg, e = PyError.runtimeError msg := by
  unfold nodeEdgeEmbLayerInit RNNEmbedding.init at he
  split_ifs at he <;> simp_all <;> exact ⟨_, he.symm⟩

theorem seqInfoEncodeLayerInit_isOk (d h : Nat) (nes sies : String) :
    (seqInfoEncodeLayerInit d h nes sies).isOk = true ↔
      (sies ∈ validSeqInfoStrategies ∧ (sies ∈ bidirectionalStrategies → h % 2 = 0)) := by
  unfold seqInfoEncodeLayerInit RNNEmbedding.init
  split_ifs <;>
    simp_all [validSeqInfoStrategies, bidirectionalStrategies, Except.isOk, Except.toBool, Except.map]

theorem seqInfoEncodeLayerInit_error (d h : Nat) (nes sies : String) (e : PyError)
    (he : seqInfoEncodeLayerInit d h nes sies = Except.error e) :
    ∃ msg, e = PyError.runtimeError msg := by
  unfold seqInfoEncodeLayerInit RNNEmbedding.init at he
  split_ifs at he <;> simp_all [Except.map] <;> exact ⟨_, he.symm⟩

theorem EmbeddingConstruction.init_isOk_eq (d h : Nat) (nes sies : String) :
    (EmbeddingConstruction.init d h nes sies).isOk =
      ((nodeEdgeEmbLayerInit d h nes).isOk &&
        (seqInfoEncodeLayerInit d h nes sies).isOk) := by
  unfold EmbeddingConstruction.init
  cases nodeEdgeEmbLayerInit d h nes <;>
    cases seqInfoEncodeLayerInit d h nes sies <;>
      simp [Except.isOk, Except.toBool, Except.bind, bind, pure, Except.pure]

/-- C3 (amended): the constructor accepts `node_edge_emb_strategy` from
`mean`/`lstm`/`bilstm`/`gru`/`bigru` and `seq_info_encode_strategy` from
`none`/`lstm`/`bilstm`/`gru`/`bigru`, raising `RuntimeError` for every other
value of either argument; an accepted pair constructs its layers without
raising provided `hidden_size` is even whenever a bidirectional strategy
(`bilstm`/`bigru`) is selected for either argument — for an odd
`hidden_size` with a bidirectional strategy, `RNNEmbedding.__init__` raises
`RuntimeError` inside the constructor. -/
theorem EmbeddingConstruction.init_accepts (d h : Nat) (nes sies : String) :
    ((EmbeddingConstruction.init d h nes sies).isOk = true ↔
      (nes ∈ validNodeEdgeStrategies ∧ sies ∈ validSeqInfoStrategies ∧
        ((nes ∈ bidirectionalStrategies ∨ sies ∈ bidirectionalStrategies) →
          h % 2 = 0))) ∧
    ∀ e, EmbeddingConstruction.init d h nes sies = Except.error e →
      ∃ msg, e = PyError.runtimeError msg := by
  constructor
  · rw [EmbeddingConstruction.init_isOk_eq, Bool.and_eq_true,
      nodeEdgeEmbLayerInit_isOk, seqInfoEncodeLayerInit_isOk]
    tauto
  · intro e he
    unfold EmbeddingConstruction.init at he
    cases hne : nodeEdgeEmbLayerInit d h nes with
    | error e1 =>
        rw [hne] at he
        simp only [bind, Except.bind] at he
        have he1 : e1 = e := by
          simpa using he
        exact nodeEdgeEmbLayerInit_error d h nes e (by rw [hne, he1])
    | ok a =>
        rw [hne] at he
        simp only [bind, Except.bind] at he
        cases hse : seqInfoEncodeLayerInit d h nes sies with
        | error e2 =>
            rw [hse] at he
            have he2 : e2 = e := by
              simpa using he
            exact seqInfoEncodeLayerInit_error d h nes sies e (by rw [hse, he2])
        | ok b =>
            rw [hse] at he
            simp [pure, Except.pure] at he

/-- Closed witness for C3: an accepted pair with even hidden size
constructs both layers without raising. -/
theorem EmbeddingConstruction.init_accepts_witness :
    (EmbeddingConstruction.init 300 4 "bigru" "bilstm").isOk = true :=
  (EmbeddingConstruction.init_accepts 300 4 "bigru" "bilstm").1.mpr (by decide)

/-- C3 counterexample: `"bilstm"` and `"none"` are both accepted strategy
strings, yet with `hidden_size = 3` the constructor raises `RuntimeError`
(from `RNNEmbedding.__init__`, line 405), so an accepted pair does not
always construct without raising. -/
theorem EmbeddingConstruction.init_bilstm_odd_raises :
    "bilstm" ∈ validNodeEdgeStrategies ∧ "none" ∈ validSeqInfoStrategies ∧
    EmbeddingConstruction.init 300 3 "bilstm" "none" =
      Except.error (PyError.runtimeError
        "hidden_size is expected to be even in the bidirectional mode!") := by
  refine ⟨by decide, by decide, ?_⟩
  rfl

/-- Index permutation returned by `torch.sort(v, 0, descending=True)`:
positions of `v` sorted by descending value (embedding_construction.py line
434; `torch.sort` returns `(values, indices)` and the code keeps `indices`). -/
def argsortDesc (v : List Nat) : List Nat :=
  List.insertionSort (fun i j => v.getD j 0 ≤ v.getD i 0) (List.range v.length)

/-- Index permutation returned by `torch.sort(v, 0)`: positions of `v`
sorted by ascending value (line 456, applied to `indx` to invert it). -/
def argsortAsc (v : List Nat) : List Nat :=
  List.insertionSort (fun i j => v.getD i 0 ≤ v.getD j 0) (List.range v.length)

theorem map_getD_range {α : Type} (l : List α) (dflt : α) :
    (List.range l.length).map (fun i => l.getD i dflt) = l := by
  apply List.ext_getElem
  · simp
  · intro n h1 h2
    rw [List.getElem_map, List.getElem_range, List.getD_eq_getElem _ dflt h2]

theorem argsortDesc_perm (v : List Nat) :
    (argsortDesc v).Perm (List.range v.length) :=
  List.perm_insertionSort _ _

theorem perm_range_getD_lt (q : List Nat) (n : Nat) (hq : q.Perm (List.range n))
    (i : Nat) (hi : i < q.length) : q.getD i 0 < n := by
  have hmem : q.getD i 0 ∈ q := by
    rw [List.getD_eq_getElem _ _ hi]
    exact List.getElem_mem _
  have h2 := hq.mem_iff.mp hmem
  simpa using h2

theorem argsortAsc_leftInverse (p : List Nat) (n : Nat)
    (hp : p.Perm (List.range n)) :
    ∀ i, i < n → p.getD ((argsortAsc p).getD i 0) 0 = i := by
  have hlen : p.length = n := by simpa using hp.length_eq
  have hqperm : (argsortAsc p).Perm (List.range n) := by
    rw [argsortAsc, hlen]
    exact List.perm_insertionSort _ _
  have hqlen : (argsortAsc p).length = n := by simpa using hqperm.length_eq
  have hsorted : List.Sorted (fun i j => p.getD i 0 ≤ p.getD j 0) (argsortAsc p) := by
    rw [argsortAsc]
    haveI : IsTotal Nat (fun i j => p.getD i 0 ≤ p.getD j 0) :=
      ⟨fun a b => Nat.le_total _ _⟩
    haveI : IsTrans Nat (fun i j => p.getD i 0 ≤ p.getD j 0) :=
      ⟨fun a b c => Nat.le_trans⟩
    exact List.sorted_insertionSort _ _
  have hmap_sorted : List.Sorted (· ≤ ·) ((argsortAsc p).map (fun i => p.getD i 0)) :=
    List.Pairwise.map _ (fun a b h => h) hsorted
  have hmap_perm : ((argsortAsc p).map (fun i => p.getD i 0)).Perm (List.range n) := by
    have h1 := hqperm.map (fun i => p.getD i 0)
    have h2 : (List.range n).map (fun i => p.getD i 0) = p := by
      rw [← hlen]; exact map_getD_range p 0
    rw [h2] at h1
    exact h1.trans hp
  have hmap_eq : (argsortAsc p).map (fun i => p.getD i 0) = List.range n :=
    List.eq_of_perm_of_sorted hmap_perm hmap_sorted (List.sorted_le_range n)
  intro i hi
  have hiq : i < (argsortAsc p).length := by omega
  have hmapi : ((argsortAsc p).map (fun j => p.getD j 0)).getD i 0 =
      (List.range n).getD i 0 := by rw [hmap_eq]
  have hlhs : ((argsortAsc p).map (fun j => p.getD j 0)).getD i 0 =
      p.getD ((argsortAsc p).getD i 0) 0 := by
    rw [List.getD_eq_getElem _ _ (by simpa using hiq), List.getElem_map,
      List.getD_eq_getElem (argsortAsc p) 0 hiq]
  have hrhs : (List.range n).getD i 0 = i := by
    rw [List.getD_eq_getElem _ _ (by simpa using hi), List.getElem_range]
  rw [hlhs, hrhs] at hmapi
  exact hmapi

theorem getD_map_of_lt {α β : Type} (f : α → β) (l : List α) (i : Nat)
    (hi : i < l.length) (dβ : β) (dα : α) :
    (l.map f).getD i dβ = f (l.getD i dα) := by
  rw [List.getD_eq_getElem _ _ (by simpa using hi), List.getElem_map,
    List.getD_eq_getElem _ _ hi]

/-- Embedding of `RNNEmbedding.forward` (lines 417-460).  The batch is
sorted by descending length, the framework RNN (abstracted by `cell`, which
maps one input sequence to its padded hidden-state sequence and its final
hidden state; packed RNN evaluation is independent across batch elements) is
applied, and the original order is restored through the indices of a second,
ascending sort.  In the non-`lstm` (GRU) branch with two directions the
source reads the undefined local name `query_lengths`
(`packed_h_t.transpose(0,1).contiguous().view(query_lengths.size(0), -1)`,
line 449), which in Python raises `NameError`. -/
def RNNEmbedding.forward (rnn_type : String) (bidirectional : Bool)
    (cell : List Vec → List Vec × Vec)
    (x : List (List Vec)) (x_len : List Nat) :
    Except PyError (List (List Vec) × List Vec) :=
  let indx := argsortDesc x_len
  let outs := indx.map (fun j => cell (x.getD j []))
  let hh := outs.map Prod.fst
  let h_t := outs.map Prod.snd
  if rnn_type ≠ "lstm" ∧ bidirectional then
    Except.error (PyError.nameError "query_lengths")
  else
    let inverse_indx := argsortAsc indx
    Except.ok (inverse_indx.map (fun j => hh.getD j []),
      inverse_indx.map (fun j => h_t.getD j []))

/-- C4: on an instance built with `rnn_type` `gru` and `bidirectional` True
(the `bigru` strategy), `RNNEmbedding.forward` raises `NameError` on every
input, because the bidirectional GRU branch reads the undefined name
`query_lengths`; no embedding is ever returned. -/
theorem RNNEmbedding.forward_bigru_nameError
    (cell : List Vec → List Vec × Vec) (x : List (List Vec)) (x_len : List Nat) :
    RNNEmbedding.forward "gru" true cell x x_len =
      Except.error (PyError.nameError "query_lengths") := by
  simp [RNNEmbedding.forward]

/-- C9: whenever `RNNEmbedding.forward` returns (every configuration except
the broken bidirectional-GRU branch), sorting the batch by descending length
followed by gathering with the inverse permutation is the identity on rows:
for every index `i`, row `i` of both returned tensors is the value the RNN
cell computes for input sequence `i`. -/
theorem RNNEmbedding.forward_restores_order (rnn_type : String)
    (bidirectional : Bool) (cell : List Vec → List Vec × Vec)
    (x : List (List Vec)) (x_len : List Nat)
    (hlen : x.length = x_len.length)
    (hok : rnn_type = "lstm" ∨ bidirectional = false) :
    ∃ hh h_t, RNNEmbedding.forward rnn_type bidirectional cell x x_len =
        Except.ok (hh, h_t) ∧
      hh.length = x.length ∧ h_t.length = x.length ∧
      ∀ i, i < x.length →
        hh.getD i [] = (cell (x.getD i [])).1 ∧
        h_t.getD i [] = (cell (x.getD i [])).2 := by
  have hcond : ¬(rnn_type ≠ "lstm" ∧ bidirectional = true) := by
    rcases hok with h | h
    · exact fun hc => hc.1 h
    · exact fun hc => by rw [h] at hc; cases hc.2
  have hplen : (argsortDesc x_len).length = x_len.length := by
    simpa using (argsortDesc_perm x_len).length_eq
  have hqperm : (argsortAsc (argsortDesc x_len)).Perm (List.range x_len.length) := by
    rw [argsortAsc, hplen]
    exact List.perm_insertionSort _ _
  have hqlen : (argsortAsc (argsortDesc x_len)).length = x_len.length := by
    simpa using hqperm.length_eq
  refine ⟨(argsortAsc (argsortDesc x_len)).map (fun j =>
      (((argsortDesc x_len).map (fun k => cell (x.getD k []))).map Prod.fst).getD j []),
    (argsortAsc (argsortDesc x_len)).map (fun j =>
      (((argsortDesc x_len).map (fun k => cell (x.getD k []))).map Prod.snd).getD j []),
    ?_, ?_, ?_, ?_⟩
  · simp only [RNNEmbedding.forward]
    rw [if_neg hcond]
  · simp [hqlen, hlen]
  · simp [hqlen, hlen]
  · intro i hi
    have hin : i < x_len.length := by omega
    have hiq : i < (argsortAsc (argsortDesc x_len)).length := by omega
    have hqi_lt : (argsortAsc (argsortDesc x_len)).getD i 0 < x_len.length :=
      perm_range_getD_lt _ _ hqperm i hiq
    have hqi_lt_p : (argsortAsc (argsortDesc x_len)).getD i 0 < (argsortDesc x_len).length := by
      omega
    have hinv : (argsortDesc x_len).getD ((argsortAsc (argsortDesc x_len)).getD i 0) 0 = i :=
      argsortAsc_leftInverse (argsortDesc x_len) x_len.length (argsortDesc_perm x_len) i hin
    constructor
    · rw [getD_map_of_lt _ _ i hiq [] 0, List.map_map,
        getD_map_of_lt _ _ _ hqi_lt_p [] 0, hinv]
      rfl
    · rw [getD_map_of_lt _ _ i hiq [] 0, List.map_map,
        getD_map_of_lt _ _ _ hqi_lt_p [] 0, hinv]
      rfl

/-- Closed witness for C9 on a concrete two-element batch with unequal
lengths. -/
theorem RNNEmbedding.forward_restores_order_witness :
    ∃ hh h_t, RNNEmbedding.forward "lstm" false
        (fun s => (s, s.headD [])) [[[1]], [[2]]] [1, 2] = Except.ok (hh, h_t) ∧
      hh.length = ([[[(1 : ℚ)]], [[2]]] : List (List Vec)).length ∧
      h_t.length = ([[[(1 : ℚ)]], [[2]]] : List (List Vec)).length ∧
      ∀ i, i < ([[[(1 : ℚ)]], [[2]]] : List (List Vec)).length →
        hh.getD i [] = ((fun (s : List Vec) => (s, s.headD [])) (([[[(1 : ℚ)]], [[2]]] : List (List Vec)).getD i [])).1 ∧
        h_t.getD i [] = ((fun (s : List Vec) => (s, s.headD [])) (([[[(1 : ℚ)]], [[2]]] : List (List Vec)).getD i [])).2 :=
  RNNEmbedding.forward_restores_order "lstm" false
    (fun s => (s, s.headD [])) [[[1]], [[2]]] [1, 2] (by decide) (Or.inl rfl)

/-- Splitting of the batched feature rows into per-graph blocks of sizes
`ns`: the `feat[int(start_idx) : int(start_idx + num_items[i].item())]`
slices of `EmbeddingConstruction.forward` (lines 203-206). -/
def blocksOf : List Vec → List Nat → List (List Vec)
  | _, [] => []
  | feat, n :: rest => feat.take n :: blocksOf (feat.drop n) rest

/-- `torch.max(num_items).item()` (line 201); `0` on an empty batch, where
torch itself would raise. -/
def torchMax (ns : List Nat) : Nat := ns.foldl max 0

/-- Zero-padding of one graph's block up to `maxn` rows of width `d` (lines
207-209): `torch.cat([tmp_feat, torch.zeros(max_num_items - num_items[i],
tmp_feat.shape[1])], 0)` guarded by `num_items[i] < max_num_items`. -/
def padBlock (b : List Vec) (n maxn d : Nat) : List Vec :=
  if n < maxn then b ++ List.replicate (maxn - n) (List.replicate d 0) else b

/-- Unbatching step of `EmbeddingConstruction.forward` (lines 200-213):
split into per-graph blocks and zero-pad each to the maximum item count of
the batch; the padding width `tmp_feat.shape[1]` is the feature width of
`feat`. -/
def unbatchPad (feat : List Vec) (ns : List Nat) : List (List Vec) :=
  (List.zip (blocksOf feat ns) ns).map
    (fun p => padBlock p.1 p.2 (torchMax ns) (feat.headD []).length)

/-- Re-batching step of `EmbeddingConstruction.forward` (lines 218-223):
trim each encoded block back to its graph's item count (`new_feat[i][:
num_items[i].item()]`) and concatenate. -/
def rebatch (nf : List (List Vec)) (ns : List Nat) : List Vec :=
  ((List.zip nf ns).map (fun p => p.1.take p.2)).flatten

/-- Sequence-information encoding path of `EmbeddingConstruction.forward`
(lines 197-225), with the stacked sequence encoder (`seq_info_encode_layer`
plus the `new_feat[0]` selection of line 216) abstracted as a function `g`
on the stacked `(B, max_num_items, D)` tensor. -/
def seqInfoEncodePath (g : List (List Vec) → List (List Vec))
    (feat : List Vec) (ns : List Nat) : List Vec :=
  rebatch (g (unbatchPad feat ns)) ns

theorem foldl_max_le_init (ns : List Nat) (a : Nat) : a ≤ ns.foldl max a := by
  induction ns generalizing a with
  | nil => simp
  | cons n rest ih => exact le_trans (Nat.le_max_left a n) (ih (max a n))

theorem mem_le_foldl_max (ns : List Nat) (a x : Nat) (hx : x ∈ ns) :
    x ≤ ns.foldl max a := by
  induction ns generalizing a with
  | nil => cases hx
  | cons n rest ih =>
      rcases List.mem_cons.mp hx with h | h
      · subst h
        exact le_trans (Nat.le_max_right a x) (foldl_max_le_init rest _)
      · exact ih _ h

theorem getD_le_torchMax (ns : List Nat) (i : Nat) (hi : i < ns.length) :
    ns.getD i 0 ≤ torchMax ns := by
  apply mem_le_foldl_max
  rw [List.getD_eq_getElem _ _ hi]
  exact List.getElem_mem hi

theorem blocksOf_length (feat : List Vec) (ns : List Nat) :
    (blocksOf feat ns).length = ns.length := by
  induction ns generalizing feat with
  | nil => rfl
  | cons n rest ih => simp [blocksOf, ih]

theorem blocksOf_getD_length :
    ∀ (ns : List Nat) (feat : List Vec), feat.length = ns.sum →
      ∀ i, i < ns.length → ((blocksOf feat ns).getD i []).length = ns.getD i 0 := by
  intro ns
  induction ns with
  | nil => intro feat _ i hi; cases hi
  | cons n rest ih =>
      intro feat h i hi
      cases i with
      | zero =>
          have hn : n ≤ feat.length := by simp at h; omega
          simp [blocksOf, List.length_take]
          omega
      | succ j =>
          have hdl : (feat.drop n).length = rest.sum := by
            simp at h ⊢; omega
          have hj : j < rest.length := by simpa using hi
          have := ih (feat.drop n) hdl j hj
          simpa [blocksOf, List.getD_cons_succ] using this

theorem getD_zip_of_lt {α β : Type} (as : List α) (bs : List β) (i : Nat)
    (hia : i < as.length) (hib : i < bs.length) (da : α) (db : β) :
    (List.zip as bs).getD i (da, db) = (as.getD i da, bs.getD i db) := by
  rw [List.getD_eq_getElem _ _ (by rw [List.length_zip]; omega), List.getElem_zip,
    List.getD_eq_getElem _ _ hia, List.getD_eq_getElem _ _ hib]

theorem padBlock_length (b : List Vec) (n maxn d : Nat)
    (hb : b.length = n) (hle : n ≤ maxn) : (padBlock b n maxn d).length = maxn := by
  unfold padBlock
  split_ifs with hc
  · simp [hb]; omega
  · simp [hb]; omega

theorem unbatchPad_length (feat : List Vec) (ns : List Nat) :
    (unbatchPad feat ns).length = ns.length := by
  simp [unbatchPad, List.length_zip, blocksOf_length]

theorem unbatchPad_getD_length (feat : List Vec) (ns : List Nat)
    (h : feat.length = ns.sum) (i : Nat) (hi : i < ns.length) :
    ((unbatchPad feat ns).getD i []).length = torchMax ns := by
  unfold unbatchPad
  have hbl : (blocksOf feat ns).length = ns.length := blocksOf_length feat ns
  have hzlen : (List.zip (blocksOf feat ns) ns).length = ns.length := by
    rw [List.length_zip]; omega
  rw [getD_map_of_lt _ _ i (by omega) [] ([], 0),
    getD_zip_of_lt _ _ i (by omega) hi [] 0]
  exact padBlock_length _ _ _ _ (blocksOf_getD_length ns feat h i hi)
    (getD_le_torchMax ns i hi)

theorem rebatch_pad_blocks (maxn d : Nat) :
    ∀ (ns : List Nat) (feat : List Vec), feat.length = ns.sum →
      rebatch ((List.zip (blocksOf feat ns) ns).map
        (fun p => padBlock p.1 p.2 maxn d)) ns = feat := by
  intro ns
  induction ns with
  | nil =>
      intro feat h
      have hfe : feat = [] := List.eq_nil_of_length_eq_zero (by simpa using h)
      simp [hfe, blocksOf, rebatch]
  | cons n rest ih =>
      intro feat h
      have hn : n ≤ feat.length := by simp at h; omega
      have htl : (feat.take n).length = n := by
        rw [List.length_take]; omega
      have hdl : (feat.drop n).length = rest.sum := by
        simp at h ⊢; omega
      have hpad : (padBlock (feat.take n) n maxn d).take n = feat.take n := by
        unfold padBlock
        split_ifs with hc
        · exact List.take_left' htl
        · rw [List.take_of_length_le (by omega)]
      calc rebatch ((List.zip (blocksOf feat (n :: rest)) (n :: rest)).map
            (fun p => padBlock p.1 p.2 maxn d)) (n :: rest)
          = (padBlock (feat.take n) n maxn d).take n ++
              rebatch ((List.zip (blocksOf (feat.drop n) rest) rest).map
                (fun p => padBlock p.1 p.2 maxn d)) rest := rfl
        _ = feat.take n ++ feat.drop n := by rw [hpad, ih _ hdl]
        _ = feat := List.take_append_drop n feat

theorem rebatch_length :
    ∀ (nf : List (List Vec)) (ns : List Nat), nf.length = ns.length →
      (∀ i, i < ns.length → ns.getD i 0 ≤ (nf.getD i []).length) →
      (rebatch nf ns).length = ns.sum := by
  intro nf
  induction nf with
  | nil =>
      intro ns h _
      have : ns = [] := List.eq_nil_of_length_eq_zero (by simpa using h.symm)
      simp [this, rebatch]
  | cons b bs ih =>
      intro ns h hle
      cases ns with
      | nil => simp at h
      | cons n rest =>
          have h0 : n ≤ b.length := by simpa using hle 0 (by simp)
          have hstep : rebatch (b :: bs) (n :: rest) = b.take n ++ rebatch bs rest := rfl
          have hrest : (rebatch bs rest).length = rest.sum := by
            refine ih rest (by simpa using h) ?_
            intro i hi
            have := hle (i + 1) (by simpa using Nat.succ_lt_succ hi)
            simpa [List.getD_cons_succ] using this
          rw [hstep]
          simp [List.length_take, hrest]
          omega

theorem blocksOf_rebatch :
    ∀ (nf : List (List Vec)) (ns : List Nat), nf.length = ns.length →
      (∀ i, i < ns.length → ns.getD i 0 ≤ (nf.getD i []).length) →
      blocksOf (rebatch nf ns) ns = (List.zip nf ns).map (fun p => p.1.take p.2) := by
  intro nf
  induction nf with
  | nil =>
      intro ns h _
      have : ns = [] := List.eq_nil_of_length_eq_zero (by simpa using h.symm)
      simp [this, rebatch, blocksOf]
  | cons b bs ih =>
      intro ns h hle
      cases ns with
      | nil => simp at h
      | cons n rest =>
          have h0 : n ≤ b.length := by simpa using hle 0 (by simp)
          have htl : (b.take n).length = n := by rw [List.length_take]; omega
          have hstep : rebatch (b :: bs) (n :: rest) = b.take n ++ rebatch bs rest := rfl
          have hrest : blocksOf (rebatch bs rest) rest =
              (List.zip bs rest).map (fun p => p.1.take p.2) := by
            refine ih rest (by simpa using h) ?_
            intro i hi
            have := hle (i + 1) (by simpa using Nat.succ_lt_succ hi)
            simpa [List.getD_cons_succ] using this
          calc blocksOf (rebatch (b :: bs) (n :: rest)) (n :: rest)
              = (b.take n ++ rebatch bs rest).take n ::
                  blocksOf ((b.take n ++ rebatch bs rest).drop n) rest := by
                rw [hstep]; rfl
            _ = b.take n :: blocksOf (rebatch bs rest) rest := by
                rw [List.take_left' htl, List.drop_left' htl]
            _ = (List.zip (b :: bs) (n :: rest)).map (fun p => p.1.take p.2) := by
                rw [hrest]; rfl

/-- C1: on a batched input whose row count equals the total item count, the
unbatch/pad/stack step followed by the per-graph trim/concatenate step is
the identity (pad then unpad restores the variable-length layout); moreover,
for every shape-preserving sequence encoder `g`, the returned tensor has
exactly `sum num_items` rows and, block by block in the original batch
order, block `i` is the first `num_items[i]` rows of encoded graph `i`. -/
theorem EmbeddingConstruction.forward_pad_unpad (feat : List Vec) (ns : List Nat)
    (h : feat.length = ns.sum) :
    rebatch (unbatchPad feat ns) ns = feat ∧
    ∀ g : List (List Vec) → List (List Vec),
      (∀ bs, (g bs).length = bs.length) →
      (∀ bs i, i < bs.length → ((g bs).getD i []).length = (bs.getD i []).length) →
      ((seqInfoEncodePath g feat ns).length = ns.sum ∧
        blocksOf (seqInfoEncodePath g feat ns) ns =
          (List.zip (g (unbatchPad feat ns)) ns).map (fun p => p.1.take p.2)) := by
  constructor
  · exact rebatch_pad_blocks (torchMax ns) (feat.headD []).length ns feat h
  · intro g hg1 hg2
    have hul : (unbatchPad feat ns).length = ns.length := unbatchPad_length feat ns
    have hgl : (g (unbatchPad feat ns)).length = ns.length := by
      rw [hg1]; exact hul
    have hile : ∀ i, i < ns.length →
        ns.getD i 0 ≤ ((g (unbatchPad feat ns)).getD i []).length := by
      intro i hi
      rw [hg2 _ i (by omega), unbatchPad_getD_length feat ns h i hi]
      exact getD_le_torchMax ns i hi
    exact ⟨rebatch_length _ ns hgl hile, blocksOf_rebatch _ ns hgl hile⟩

/-- Closed witness for C1: a concrete two-graph batch with item counts 2 and
1 survives the pad/unpad round trip. -/
theorem EmbeddingConstruction.forward_pad_unpad_witness :
    rebatch (unbatchPad [[1], [2], [3]] [2, 1]) [2, 1] = [[(1 : ℚ)], [2], [3]] :=
  (EmbeddingConstruction.forward_pad_unpad [[1], [2], [3]] [2, 1] (by decide)).1

/-- A configured word-embedding layer of `EmbeddingConstruction` (lines
89-101): the `w2v` lookup table (`WordEmbedding`, lines 288-336, holding the
vocabulary embedding matrix) or the BERT encoder (`BertEmbedding`, lines
338-346). -/
inductive WordEmbLayer where
  | w2v : List Vec → WordEmbLayer
  | bert : WordEmbLayer
deriving DecidableEq

/-- Application `word_emb_layer(input_tensor)` of one configured layer to
the `(N, L)` word-index tensor (line 187).  The `w2v` layer is the
`nn.Embedding` table lookup.  `BertEmbedding.forward` is declared
`def forward(self):` with no input parameter (line 345), so the call
`word_emb_layer(input_tensor)` — `nn.Module.__call__` forwarding the
tensor to `self.forward(input_tensor)` — raises `TypeError` from the arity
mismatch; the `raise NotImplementedError()` body (line 346) is unreachable
through this call. -/
def WordEmbLayer.apply : WordEmbLayer → List (List Nat) → Except PyError (List (List Vec))
  | .w2v table, input_tensor =>
      Except.ok (input_tensor.map (fun row => row.map (fun idx => table.getD idx [])))
  | .bert, _ => Except.error
      (PyError.typeError "forward() takes 1 positional argument but 2 were given")

/-- `torch.cat(feat, dim=-1)` (line 189) on the per-layer `(N, L, D_k)`
outputs: concatenation along the feature dimension.  (On an empty layer
list torch itself raises; the claims always configure at least one layer.) -/
def catLastDim : List (List (List Vec)) → List (List Vec)
  | [] => []
  | [f] => f
  | f :: f2 :: rest => List.zipWith (List.zipWith (· ++ ·)) f (catLastDim (f2 :: rest))

/-- Word-embedding stage of `EmbeddingConstruction.forward` (lines 185-189):
each configured layer is applied to the input tensor in registration order
and the outputs are concatenated along the last dimension. -/
def EmbeddingConstruction.forwardWordFeat (layers : List WordEmbLayer)
    (input_tensor : List (List Nat)) : Except PyError (List (List Vec)) := do
  let feat ← layers.mapM (fun layer => layer.apply input_tensor)
  pure (catLastDim feat)

theorem getD_zipWith_of_lt {α β γ : Type} (f : α → β → γ) (as : List α)
    (bs : List β) (i : Nat) (hia : i < as.length) (hib : i < bs.length)
    (da : α) (db : β) (dg : γ) :
    (List.zipWith f as bs).getD i dg = f (as.getD i da) (bs.getD i db) := by
  rw [List.getD_eq_getElem _ _ (by rw [List.length_zipWith]; omega),
    List.getElem_zipWith, List.getD_eq_getElem _ _ hia, List.getD_eq_getElem _ _ hib]

theorem mapM_w2v_apply (tables : List (List Vec)) (input_tensor : List (List Nat)) :
    (tables.map WordEmbLayer.w2v).mapM (fun layer => layer.apply input_tensor) =
      Except.ok (tables.map (fun t =>
        input_tensor.map (fun row => row.map (fun idx => t.getD idx [])))) := by
  induction tables with
  | nil => rfl
  | cons t rest ih =>
      rw [List.map_cons, List.mapM_cons, ih]
      rfl

theorem catLastDim_lookup (input_tensor : List (List Nat)) :
    ∀ tables : List (List Vec), tables ≠ [] →
      (catLastDim (tables.map (fun t =>
          input_tensor.map (fun row => row.map (fun idx => t.getD idx []))))).length =
        input_tensor.length ∧
      (∀ i, i < input_tensor.length →
        ((catLastDim (tables.map (fun t =>
            input_tensor.map (fun row => row.map (fun idx => t.getD idx []))))).getD i []).length =
          (input_tensor.getD i []).length) ∧
      (∀ i j, i < input_tensor.length → j < (input_tensor.getD i []).length →
        (((catLastDim (tables.map (fun t =>
            input_tensor.map (fun row => row.map (fun idx => t.getD idx []))))).getD i []).getD j []) =
          (tables.map (fun t => t.getD ((input_tensor.getD i []).getD j 0) [])).flatten) := by
  intro tables
  induction tables with
  | nil => intro hne; cases hne rfl
  | cons t rest ih =>
      intro _
      cases rest with
      | nil =>
          refine ⟨by simp [catLastDim], ?_, ?_⟩
          · intro i hi
            simp only [List.map_cons, List.map_nil, catLastDim]
            rw [getD_map_of_lt _ _ i hi [] []]
            simp
          · intro i j hi hj
            simp only [List.map_cons, List.map_nil, catLastDim]
            rw [getD_map_of_lt _ _ i hi [] [], getD_map_of_lt _ _ j hj [] 0]
            simp
      | cons t2 rest' =>
          obtain ⟨ih1, ih2, ih3⟩ := ih (by simp)
          simp only [List.map_cons] at ih1 ih2 ih3
          refine ⟨?_, ?_, ?_⟩
          · simp only [List.map_cons, catLastDim]
            rw [List.length_zipWith, ih1]
            simp
          · intro i hi
            simp only [List.map_cons, catLastDim]
            have hrow1 : ((input_tensor.map (fun row =>
                row.map (fun idx => t.getD idx []))).getD i []).length =
                (input_tensor.getD i []).length := by
              rw [getD_map_of_lt _ _ i hi [] []]
              simp
            rw [getD_zipWith_of_lt _ _ _ i (by simpa using hi)
              (by rw [ih1]; exact hi) [] [] []]
            rw [List.length_zipWith, hrow1, ih2 i hi]
            simp
          · intro i j hi hj
            simp only [List.map_cons, catLastDim]
            have hrow1 : ((input_tensor.map (fun row =>
                row.map (fun idx => t.getD idx []))).getD i []).length =
                (input_tensor.getD i []).length := by
              rw [getD_map_of_lt _ _ i hi [] []]
              simp
            rw [getD_zipWith_of_lt _ _ _ i (by simpa using hi)
              (by rw [ih1]; exact hi) [] [] []]
            rw [getD_zipWith_of_lt _ _ _ j (by rw [hrow1]; exact hj)
              (by rw [ih2 i hi]; exact hj) [] [] []]
            rw [getD_map_of_lt _ _ i hi [] [], getD_map_of_lt _ _ j hj [] 0]
            rw [ih3 i j hi hj]
            simp

/-- C8 (amended): on a configuration whose word-embedding layers are all
implemented lookup layers (the `w2v` table), the forward pass applies every
layer to the input word-index tensor in registration order and concatenates
their outputs along the feature dimension, so each pre-aggregation feature
vector is the concatenation of the per-layer embeddings and its width is the
sum of the individual embedding widths; with the BERT layer configured the
stage instead raises `TypeError`, since `BertEmbedding.forward` accepts no
input tensor. -/
theorem EmbeddingConstruction.forwardWordFeat_concat (tables : List (List Vec))
    (ds : List Nat) (input_tensor : List (List Nat))
    (hne : tables ≠ [])
    (hlen : tables.length = ds.length)
    (hwd : ∀ k, k < tables.length → ∀ v ∈ tables.getD k [], v.length = ds.getD k 0)
    (hidx : ∀ row ∈ input_tensor, ∀ idx ∈ row, ∀ k, k < tables.length →
      idx < (tables.getD k []).length) :
    ∃ out, EmbeddingConstruction.forwardWordFeat (tables.map WordEmbLayer.w2v)
        input_tensor = Except.ok out ∧
      ∀ i j, i < input_tensor.length → j < (input_tensor.getD i []).length →
        (out.getD i []).getD j [] =
          (tables.map (fun t => t.getD ((input_tensor.getD i []).getD j 0) [])).flatten ∧
        ((out.getD i []).getD j []).length = ds.sum := by
  obtain ⟨hc1, hc2, hc3⟩ := catLastDim_lookup input_tensor tables hne
  refine ⟨catLastDim (tables.map (fun t =>
      input_tensor.map (fun row => row.map (fun idx => t.getD idx [])))), ?_, ?_⟩
  · unfold EmbeddingConstruction.forwardWordFeat
    rw [mapM_w2v_apply]
    rfl
  · intro i j hi hj
    have hentry := hc3 i j hi hj
    refine ⟨hentry, ?_⟩
    rw [hentry, List.length_flatten, List.map_map]
    have hcomp : (List.length ∘ fun t : List Vec =>
        t.getD ((input_tensor.getD i []).getD j 0) []) =
        fun t : List Vec => (t.getD ((input_tensor.getD i []).getD j 0) []).length := rfl
    rw [hcomp]
    have hmapeq : tables.map (fun t =>
        (t.getD ((input_tensor.getD i []).getD j 0) []).length) = ds := by
      apply List.ext_getElem
      · simpa using hlen
      · intro k h1 h2
        rw [List.getElem_map]
        have hkt : k < tables.length := by simpa using h1
        have hidxk : (input_tensor.getD i []).getD j 0 < (tables.getD k []).length := by
          apply hidx (input_tensor.getD i []) ?_ ((input_tensor.getD i []).getD j 0) ?_ k hkt
          · rw [List.getD_eq_getElem _ _ hi]; exact List.getElem_mem hi
          · rw [List.getD_eq_getElem _ _ hj]; exact List.getElem_mem hj
        have hmem : (tables.getD k []).getD ((input_tensor.getD i []).getD j 0) [] ∈
            tables.getD k [] := by
          rw [List.getD_eq_getElem _ _ hidxk]; exact List.getElem_mem hidxk
        have hv := hwd k hkt _ hmem
        rw [List.getD_eq_getElem tables [] hkt, List.getD_eq_getElem ds 0 h2] at hv
        exact hv
    rw [hmapeq]

/-- Closed witness for C8 on a two-layer w2v-only configuration with widths
1 and 2. -/
theorem EmbeddingConstruction.forwardWordFeat_concat_witness :
    ∃ out, EmbeddingConstruction.forwardWordFeat
        ([[[1], [2]], [[3, 4], [5, 6]]].map WordEmbLayer.w2v) [[0, 1]] =
        Except.ok out ∧
      ∀ i j, i < ([[0, 1]] : List (List Nat)).length →
          j < (([[0, 1]] : List (List Nat)).getD i []).length →
        (out.getD i []).getD j [] =
          (([[[(1 : ℚ)], [2]], [[3, 4], [5, 6]]] : List (List Vec)).map
            (fun t => t.getD ((([[0, 1]] : List (List Nat)).getD i []).getD j 0) [])).flatten ∧
        ((out.getD i []).getD j []).length = ([1, 2] : List Nat).sum :=
  EmbeddingConstruction.forwardWordFeat_concat [[[1], [2]], [[3, 4], [5, 6]]] [1, 2]
    [[0, 1]] (by decide) (by decide) (by decide) (by decide)

/-- C8 counterexample: with both the `w2v` table and the BERT encoder
configured (`word_emb_type` containing `bert`), the word-embedding stage
raises `TypeError` — `BertEmbedding.forward` is declared without an input
parameter (line 345), so `word_emb_layer(input_tensor)` fails on arity
before its `raise NotImplementedError()` body could run — instead of
concatenating the layer outputs, so the claimed concatenation does not
happen for every configured layer list. -/
theorem EmbeddingConstruction.forwardWordFeat_bert_raises :
    EmbeddingConstruction.forwardWordFeat [WordEmbLayer.w2v [[1]], WordEmbLayer.bert]
      [[0]] = Except.error
        (PyError.typeError "forward() takes 1 positional argument but 2 were given") := rfl

/-- Keywords that may begin a Python compound-statement header — the only
complete logical lines that legally end with a colon. -/
def pythonCompoundKeywords : List String :=
  ["if", "elif", "else", "for", "while", "try", "except", "finally",
   "with", "def", "class", "async", "match", "case"]

/-- The character list ends with a colon. -/
def endsWithColon (cs : List Char) : Bool := cs.getLast? == some ':'

/-- The character list starts with the given keyword followed by a space or
a colon (a word boundary). -/
def startsWithKeyword (cs : List Char) (w : String) : Bool :=
  (w.toList ++ [' ']).isPrefixOf cs || (w.toList ++ [':']).isPrefixOf cs

/-- Bracket, brace and quote characters, by character code
(`( ) [ ] { } " '` = 40 41 91 93 123 125 34 39): inside these a colon can
belong to a slice, a dict display or a string, and an open bracket makes
the physical line continue. -/
def isDelimOrQuote (c : Char) : Bool :=
  c.toNat = 40 || c.toNat = 41 || c.toNat = 91 || c.toNat = 93 ||
  c.toNat = 123 || c.toNat = 125 || c.toNat = 34 || c.toNat = 39

/-- Modelled from the spec: the Python parser is external to this
repository.  A complete logical line containing no bracket, brace or quote
character (so no implicit continuation and no slice/dict/string colon) that
is a simple statement — it contains `=` (code 61) and does not begin with a
compound-statement keyword — may not end with `:` in the Python statement
grammar; per the spec, such stray colons after class/member references make
the example file syntactically invalid. -/
def strayTrailingColonStmt (line : String) : Bool :=
  let cs := line.toList
  endsWithColon cs &&
  cs.all (fun c => !(isDelimOrQuote c)) &&
  cs.any (fun c => c.toNat = 61) &&
  !(pythonCompoundKeywords.any (fun k => startsWithKeyword cs k))

/-- Line 76 of conll.py, indentation stripped: the statement inside the
`graph_type == 'dependency'` branch of `ConllDataset.build_topology`. -/
def conllLine76 : String :=
  "self.topology_builder = DependencyBasedGraphConstruction_without_tokenizer:"

/-- Line 91 of conll.py, indentation stripped: the statement inside the
`'line'` branch of `ConllDataset.build_topology`. -/
def conllLine91 : String :=
  "self.topology_builder = LineBasedGraphConstruction:"

/-- Modelled from the spec: a module is syntactically valid Python only if
none of its logical lines is a stray-colon simple statement. -/
def conllModuleSyntaxValid : Bool :=
  !([conllLine76, conllLine91].any strayTrailingColonStmt)

/-- C5: conll.py is not syntactically valid Python: lines 76 and 91 of
`ConllDataset.build_topology` are simple assignment statements carrying a
stray trailing colon after a class reference
(`DependencyBasedGraphConstruction_without_tokenizer` resp.
`LineBasedGraphConstruction`), so the module cannot be parsed or
imported. -/
theorem conll_not_parseable :
    strayTrailingColonStmt conllLine76 = true ∧
    strayTrailingColonStmt conllLine91 = true ∧
    conllModuleSyntaxValid = false :=
  ⟨rfl, rfl, rfl⟩

/-- Value held by the `topology_builder` attribute / constructor argument
of `ConllDataset` (conll.py): Python `None`, a string, or one of the
imported graph-construction classes. -/
inductive BuilderVal where
  | pyNone : BuilderVal
  | str : String → BuilderVal
  | dependencyWithoutTokenizer : BuilderVal
  | lineBased : BuilderVal
  | constituencyBased : BuilderVal
  | ieBased : BuilderVal
deriving DecidableEq, Repr

/-- The `nlp_processor` value a topology builder receives. -/
inductive NlpProcessor where
  | pyNone : NlpProcessor
  | coreNLP (host : String) (port timeout : Nat) : NlpProcessor
deriving DecidableEq, Repr

/-- Embedding of the static-branch builder dispatch of
`ConllDataset.build_topology` (conll.py lines 75-112), reading the
stray-colon lines 76 and 91 as the plain assignments they evidently intend:
the first branch tests `self.graph_type == 'dependency'`, while the second
and third branches test `self.topology_builder` — not the graph type —
against the strings `'line'` and `'constituency'`; every other combination
raises `NotImplementedError` (line 112). -/
def conllStaticSelect (graph_type : String) (topology_builder : BuilderVal) :
    Except PyError BuilderVal :=
  if graph_type = "dependency" then
    Except.ok BuilderVal.dependencyWithoutTokenizer
  else if topology_builder = BuilderVal.str "line" then
    Except.ok BuilderVal.lineBased
  else if topology_builder = BuilderVal.str "constituency" then
    Except.ok BuilderVal.constituencyBased
  else
    Except.error PyError.notImplementedError

/-- Embedding of the static branch of `build_topology` through the
`nlp_processor` the `topology()` calls receive (lines 75-139): the
dependency branch builds `stanfordcorenlp.StanfordCoreNLP("http://localhost",
port=9000, timeout=1000)` (lines 78-80) and passes it inside
`depedency_topology_aux_args` (line 120) to the dependency builder (lines
123-128); any other selected builder is called with `nlp_processor=None`
(line 136); in the constituency branch the local `processor` is never
assigned, so building the aux-args dict at line 120 raises `NameError`. -/
def conllStaticNlpProcessor (graph_type : String) (topology_builder : BuilderVal) :
    Except PyError NlpProcessor :=
  if graph_type = "dependency" then
    Except.ok (NlpProcessor.coreNLP "http://localhost" 9000 1000)
  else if topology_builder = BuilderVal.str "line" then
    Except.ok NlpProcessor.pyNone
  else if topology_builder = BuilderVal.str "constituency" then
    Except.error (PyError.nameError "processor")
  else
    Except.error PyError.notImplementedError

/-- Embedding of the `node_emb_refined` branch of `build_topology` (lines
151-222) through the `nlp_processor` stored into
`dynamic_init_topology_aux_args` (line 212): the `line` and `constituency`
sub-branches never assign `processor` (they only set `processor_args`), so
reading it at line 212 raises `NameError`; the `dependency` sub-branch
builds the CoreNLP client (lines 180-182); the final `else` sets
`processor = None` (line 203). -/
def conllDynamicInitProcessor (dynamic_init_graph_type : String) :
    Except PyError NlpProcessor :=
  if dynamic_init_graph_type = "line" then
    Except.error (PyError.nameError "processor")
  else if dynamic_init_graph_type = "dependency" then
    Except.ok (NlpProcessor.coreNLP "http://localhost" 9000 1000)
  else if dynamic_init_graph_type = "constituency" then
    Except.error (PyError.nameError "processor")
  else
    Except.ok NlpProcessor.pyNone

/-- C6 counterexample: with `graph_type='line'` and the default
`topology_builder=None`, `build_topology` raises `NotImplementedError`
instead of selecting `LineBasedGraphConstruction` — the `'line'` and
`'constituency'` branches test `self.topology_builder`, not the static
graph type. -/
theorem conllStaticSelect_line_graph_type_raises :
    conllStaticSelect "line" BuilderVal.pyNone =
      Except.error PyError.notImplementedError ∧
    conllStaticSelect "line" BuilderVal.pyNone ≠
      Except.ok BuilderVal.lineBased := by
  constructor
  · rfl
  · simp [conllStaticSelect]

/-- C6 (amended): the static dispatch of `build_topology` selects
`DependencyBasedGraphConstruction_without_tokenizer` exactly when
`graph_type == 'dependency'`, `LineBasedGraphConstruction` exactly when
`self.topology_builder` equals the string `'line'` (the graph type not
being `'dependency'`), and `ConstituencyBasedGraphConstruction` exactly
when `self.topology_builder` equals `'constituency'` (same proviso,
`topology_builder` not `'line'`), raising `NotImplementedError` in every
other case; `IEBasedGraphConstruction` is imported (conll.py lines 7-9) but
selected by no branch. -/
theorem conllStaticSelect_spec (graph_type : String) (topology_builder : BuilderVal) :
    (∀ b, conllStaticSelect graph_type topology_builder = Except.ok b ↔
      ((graph_type = "dependency" ∧ b = BuilderVal.dependencyWithoutTokenizer) ∨
       (graph_type ≠ "dependency" ∧ topology_builder = BuilderVal.str "line" ∧
         b = BuilderVal.lineBased) ∨
       (graph_type ≠ "dependency" ∧ topology_builder ≠ BuilderVal.str "line" ∧
         topology_builder = BuilderVal.str "constituency" ∧
         b = BuilderVal.constituencyBased))) ∧
    (conllStaticSelect graph_type topology_builder ≠ Except.ok BuilderVal.ieBased) ∧
    ((graph_type ≠ "dependency" ∧ topology_builder ≠ BuilderVal.str "line" ∧
        topology_builder ≠ BuilderVal.str "constituency") →
      conllStaticSelect graph_type topology_builder =
        Except.error PyError.notImplementedError) := by
  unfold conllStaticSelect
  split_ifs with h1 h2 h3 <;> simp_all <;> exact fun b => eq_comm

/-- Closed witness for C6: the dependency graph type selects the dependency
builder. -/
theorem conllStaticSelect_spec_witness :
    conllStaticSelect "dependency" BuilderVal.pyNone =
      Except.ok BuilderVal.dependencyWithoutTokenizer :=
  ((conllStaticSelect_spec "dependency" BuilderVal.pyNone).1
    BuilderVal.dependencyWithoutTokenizer).mpr (Or.inl ⟨rfl, rfl⟩)

/-- C10 counterexample: with `graph_type='line'` and the default
`topology_builder=None` no topology call receives any processor at all —
`build_topology` raises `NotImplementedError` — so "for the 'line' graph
type the processor passed is None" fails: the line branch actually requires
`self.topology_builder == 'line'`. -/
theorem conllStaticNlpProcessor_line_graph_type_raises :
    conllStaticNlpProcessor "line" BuilderVal.pyNone =
      Except.error PyError.notImplementedError := rfl

/-- C10 (amended): with `graph_type == 'dependency'` — and likewise with
`dynamic_init_graph_type == 'dependency'` under `node_emb_refined` — the
code constructs a `StanfordCoreNLP` client for `"http://localhost"`, port
9000, timeout 1000, and that client is the `nlp_processor` used to build
each item's topology, whereas when the line branch is selected (which the
code keys on `self.topology_builder == 'line'`, not on the graph type) the
processor passed is `None`. -/
theorem conll_nlp_processor_spec (graph_type : String) (tb : BuilderVal) :
    conllStaticNlpProcessor "dependency" tb =
      Except.ok (NlpProcessor.coreNLP "http://localhost" 9000 1000) ∧
    conllDynamicInitProcessor "dependency" =
      Except.ok (NlpProcessor.coreNLP "http://localhost" 9000 1000) ∧
    (graph_type ≠ "dependency" → tb = BuilderVal.str "line" →
      conllStaticNlpProcessor graph_type tb = Except.ok NlpProcessor.pyNone) := by
  refine ⟨rfl, rfl, ?_⟩
  intro h1 h2
  unfold conllStaticNlpProcessor
  rw [if_neg h1, if_pos h2]

/-- Closed witness for C10: a non-dependency graph type with
`topology_builder = 'line'` passes `None` as the processor. -/
theorem conll_nlp_processor_spec_witness :
    conllStaticNlpProcessor "none" (BuilderVal.str "line") =
      Except.ok NlpProcessor.pyNone :=
  (conll_nlp_processor_spec "none" (BuilderVal.str "line")).2.2 (by decide) rfl
